import Mathlib

/-!
Verification development for the keystone LDAP directory backend
(`keystone/common/ldap/core.py`): a shallow embedding of the codec,
the DN algebra, the paged-search loop, the CRUD update diff engine,
membership operations, entry marshalling and the enabled-emulation
overlay, together with theorems settling the specification claims.

Python values that flow through the layer are modelled by `PyVal`
(unicode text, integers and booleans); Python `None` is modelled by
`Option` at each use site, mirroring the source's `is None` tests.
-/

deriving instance DecidableEq for Except

/-- Python scalar values handled by the codec layer: booleans,
integers and (unicode) text.  UTF-8 byte encoding at the wire
boundary is the identity on this model. -/
inductive PyVal where
  | b (val : Bool)
  | i (val : Int)
  | s (val : String)
deriving DecidableEq

/-- Python `==` on scalar values: `True == 1` and `False == 0` hold,
numeric and string values never compare equal across kinds. -/
def pyEq : PyVal → PyVal → Bool
  | .b b1, .b b2 => b1 == b2
  | .i n1, .i n2 => n1 == n2
  | .b b1, .i n2 => (if b1 then (1 : Int) else 0) == n2
  | .i n1, .b b2 => n1 == (if b2 then (1 : Int) else 0)
  | .s s1, .s s2 => s1 == s2
  | _, _ => false

/-- Python `==` lifted to possibly-`None` values (`none` models `None`). -/
def pyEqO : Option PyVal → Option PyVal → Bool
  | none, none => true
  | some a, some b => pyEq a b
  | _, _ => false

/-- Python truthiness (`if value:`) for possibly-`None` scalar values. -/
def pyTruthy : Option PyVal → Bool
  | none => false
  | some (.b b) => b
  | some (.i n) => n != 0
  | some (.s s) => s != ""

/-- First value bound to key `k` in an association list (Python dict
read `m[k]`, given dict keys are unique). -/
def lookupKey {α : Type} : List (String × α) → String → Option α
  | [], _ => none
  | (k', v) :: rest, k => if k' = k then some v else lookupKey rest k

/-- Dict assignment `m[k] = v`: replace the binding of `k` if present,
append it otherwise. -/
def insertKey {α : Type} : List (String × α) → String → α → List (String × α)
  | [], k, v => [(k, v)]
  | (k', v') :: rest, k, v =>
    if k' = k then (k, v) :: rest else (k', v') :: insertKey rest k v

/-- Dict `m.pop(k, default)`'s effect on the dict: drop the binding of `k`. -/
def eraseKey {α : Type} : List (String × α) → String → List (String × α)
  | [], _ => []
  | (k', v) :: rest, k =>
    if k' = k then eraseKey rest k else (k', v) :: eraseKey rest k

/-- An entity dictionary: logical keys bound to a value or to Python
`None` (`none`). -/
abbrev Values : Type := List (String × Option PyVal)

/-- Python `m.get(k)` on an entity dictionary: `None` both for an
absent key and for a key explicitly bound to `None`. -/
def dictGet (m : Values) (k : String) : Option PyVal :=
  match lookupKey m k with
  | some (some v) => some v
  | _ => none

/- ### Codec (`py2ldap` / `ldap2py`) -/

/-- Python `str.lower()` (done characterwise; `String.mk` keeps the
computation kernel-reducible). -/
def strToLower (s : String) : String :=
  String.mk (s.toList.map Char.toLower)

/-- Whitespace characters recognised by Python's `str.strip()` and
the regex class `\s`. -/
def isPyWs (c : Char) : Bool :=
  c == ' ' || c == '\t' || c == '\n' || c == '\r' || c == '\x0b' || c == '\x0c'

/-- Strip leading and trailing whitespace from a character list
(Python `str.strip()`). -/
def stripWsList (cs : List Char) : List Char :=
  ((cs.dropWhile isPyWs).reverse.dropWhile isPyWs).reverse

/-- Numeric value of a decimal digit string (each char assumed a digit). -/
def digitsVal (cs : List Char) : Nat :=
  cs.foldl (fun a c => a * 10 + (c.toNat - 48)) 0

/-- Parse a non-empty all-digit character list to a natural number. -/
def digitsToNat (cs : List Char) : Option Nat :=
  if cs.isEmpty then none
  else if cs.all Char.isDigit then some (digitsVal cs) else none

/-- Sign handling of Python `int(str)` after whitespace stripping. -/
def pyIntParseChars (cs : List Char) : Option Int :=
  match cs with
  | [] => none
  | c :: rest =>
    if c = '-' then (digitsToNat rest).map (fun m => -(m : Int))
    else if c = '+' then (digitsToNat rest).map (fun m => (m : Int))
    else (digitsToNat (c :: rest)).map (fun m => (m : Int))

/-- Python `int(val)` on a string: strip whitespace, optional sign,
then a non-empty run of decimal digits; `none` models `ValueError`. -/
def pyIntParse (s : String) : Option Int :=
  pyIntParseChars (stripWsList s.toList)

/-- Decimal digit characters of a natural number, most significant first
(empty for zero). -/
def natDigits (n : Nat) : List Char :=
  if h : n = 0 then []
  else natDigits (n / 10) ++ [Nat.digitChar (n % 10)]
decreasing_by exact Nat.div_lt_self (Nat.pos_of_ne_zero h) (by omega)

/-- Python `str` of a natural number. -/
def natToString (n : Nat) : String :=
  if n = 0 then "0" else String.mk (natDigits n)

/-- Python `str` (`six.text_type`) of an integer. -/
def intToLdapString : Int → String
  | .ofNat m => natToString m
  | .negSucc m => String.mk ('-' :: natDigits (m + 1))

/-- `py2ldap`: booleans become `"TRUE"`/`"FALSE"`, every other value its
textual representation (`six.text_type`). -/
def py2ldap : PyVal → String
  | .b true => "TRUE"
  | .b false => "FALSE"
  | .i n => intToLdapString n
  | .s s => s

/-- `ldap2py`: `LDAP_VALUES` lookup (`"TRUE"`/`"FALSE"` to booleans),
then integer parse, then UTF-8 decode to text (identity here). -/
def ldap2py (s : String) : PyVal :=
  if s = "TRUE" then .b true
  else if s = "FALSE" then .b false
  else
    match pyIntParse s with
    | some n => .i n
    | none => .s s

/- ### DN algebra (`prep_case_insensitive` .. `dn_startswith`)

DNs enter the algebra already parsed by the external `ldap.dn.str2dn`:
an AVA is a `(attribute type, value, flags)` triple, an RDN a list of
AVAs and a DN a list of RDNs, exactly the shape `str2dn` returns. -/

/-- An attribute-value assertion as produced by `ldap.dn.str2dn`. -/
abbrev AVA : Type := String × String × Nat

/-- Collapse every run of whitespace to a single space, tracking
whether the previous character was whitespace
(the `re.sub` step of `prep_case_insensitive`). -/
def squashWsGo (prevWs : Bool) : List Char → List Char
  | [] => []
  | c :: rest =>
    if isPyWs c then
      if prevWs then squashWsGo true rest
      else ' ' :: squashWsGo true rest
    else c :: squashWsGo false rest

/-- Collapse every run of whitespace to a single space. -/
def squashWs (cs : List Char) : List Char :=
  squashWsGo false cs

/-- `prep_case_insensitive`: lowercase, strip leading/trailing
whitespace, compress internal whitespace runs to single spaces. -/
def prep_case_insensitive (value : String) : String :=
  String.mk (squashWs (stripWsList (strToLower value).toList))

/-- `is_ava_value_equal`: case-insensitive, whitespace-normalised value
comparison (the attribute type is ignored, as in the source). -/
def is_ava_value_equal (attributeType val1 val2 : String) : Bool :=
  prep_case_insensitive val1 == prep_case_insensitive val2

/-- Outcome of the source's inner loop over `rdn2`: no AVA with the
wanted attribute type, or a first type match with equal/unequal value. -/
inductive AvaScan where
  | missing
  | foundEq
  | foundNe
deriving DecidableEq

/-- The inner `for` loop of `is_rdn_equal`: scan `rdn2` for the first
AVA whose attribute type equals `t1` case-insensitively; report whether
its value matches `v1`. -/
def scanRdn (t1 v1 : String) : List AVA → AvaScan
  | [] => .missing
  | (t2, v2, _) :: rest =>
    if strToLower t1 = strToLower t2 then
      if is_ava_value_equal t1 v1 v2 then .foundEq else .foundNe
    else scanRdn t1 v1 rest

/-- The outer `for` loop of `is_rdn_equal`: every AVA of `rdn1` must
find a type match with equal value in `rdn2`. -/
def rdnAllFound (rdn2 : List AVA) : List AVA → Bool
  | [] => true
  | (t1, v1, _) :: rest =>
    match scanRdn t1 v1 rdn2 with
    | .foundEq => rdnAllFound rdn2 rest
    | _ => false

/-- `is_rdn_equal`: equal AVA count and every AVA of `rdn1` matched in
`rdn2` (order-insensitive, first type match decides). -/
def is_rdn_equal (rdn1 rdn2 : List AVA) : Bool :=
  if rdn1.length ≠ rdn2.length then false
  else rdnAllFound rdn2 rdn1

/-- `is_dn_equal` on parsed DNs: equal RDN count and pairwise
`is_rdn_equal` over `zip(dn1, dn2)`. -/
def is_dn_equal (dn1 dn2 : List (List AVA)) : Bool :=
  if dn1.length ≠ dn2.length then false
  else (dn1.zip dn2).all fun p => is_rdn_equal p.1 p.2

/-- `dn_startswith` on parsed DNs: strictly more RDNs, then
`is_dn_equal(descendant_dn[len(dn):], dn)` exactly as the source
slices it. -/
def dn_startswith (descendantDn dn : List (List AVA)) : Bool :=
  if descendantDn.length ≤ dn.length then false
  else is_dn_equal (descendantDn.drop dn.length) dn

/- ### Paged search engine (`KeystoneLDAPHandler._paged_search_s`) -/

/-- One `result3` answer from the server: the page's entries and the
response controls, each control a `(controlType, (estimate, cookie))`
triple. -/
structure PageResponse (α : Type) where
  rdata : List α
  serverctrls : List (String × Nat × String)
deriving DecidableEq

/-- `ldap.LDAP_CONTROL_PAGE_OID`. -/
def ldapControlPageOid : String := "1.2.840.113556.1.4.319"

/-- The source's `pctrls` filter: response controls carrying the paging
OID. -/
def pageCtrls {α : Type} (r : PageResponse α) : List (String × Nat × String) :=
  r.serverctrls.filter fun c => c.1 == ldapControlPageOid

/-- The `while True` loop of `_paged_search_s`, consuming one server
response per `result3` call.  Returns `(entries, new page_size,
warnings emitted)`; `none` if the response sequence runs out while the
loop still awaits a page. -/
def pagedLoop {α : Type} (pageSize : Nat) (acc : List α) :
    List (PageResponse α) → Option (List α × Nat × Nat)
  | [] => none
  | r :: rest =>
    let acc2 := acc ++ r.rdata
    match pageCtrls r with
    | [] => some (acc2, 0, 1)
    | c :: _ =>
      if c.2.2 ≠ "" then pagedLoop pageSize acc2 rest
      else some (acc2, pageSize, 0)

/-- `_paged_search_s` against a scripted sequence of server responses. -/
def paged_search_s {α : Type} (pageSize : Nat) (responses : List (PageResponse α)) :
    Option (List α × Nat × Nat) :=
  pagedLoop pageSize [] responses

/-- The branch test of `KeystoneLDAPHandler.search_s`
(`if self.page_size:`): a zero page size takes the unpaged path. -/
def searchUsesPagedPath (pageSize : Nat) : Bool :=
  pageSize != 0

/- ### Entity engine errors and protocol outcomes -/

/-- Outcome reported by the protocol client for a `modify_s` call. -/
inductive LdapResult where
  | success
  | noSuchObject
  | typeOrValueExists
  | noSuchAttribute
  | serverDown
deriving DecidableEq

/-- The typed errors of the entity-engine boundary
(`keystone.exception`), plus `ldapError` for protocol errors that the
engine lets propagate unchanged. -/
inductive KErr where
  | notFound (target : String)
  | conflict (group member : String)
  | validationError (attr : String)
  | ldapError (code : LdapResult)
deriving DecidableEq

/- ### `BaseLdap.update` diff engine -/

/-- The three LDAP modify operations. -/
inductive ModOp where
  | modAdd
  | modDelete
  | modReplace
deriving DecidableEq

/-- A modlist entry: operation, directory attribute
(`attribute_mapping.get(k, k)`, which may be `None`), value list or
`None` for a delete. -/
abbrev ModEntry : Type := ModOp × Option String × Option (List PyVal)

/-- `attribute_mapping.get(k, k)`: the mapped directory attribute
(possibly `None`), defaulting to the logical key itself. -/
def mappingGet (mapping : List (String × Option String)) (k : String) : Option String :=
  match lookupKey mapping k with
  | some v => v
  | none => some k

/-- The `old_obj[k] == v` skip test of `BaseLdap.update`
(`k in old_obj and old_obj[k] == v`). -/
def unchangedInOld (oldObj : Values) (k : String) (v : Option PyVal) : Bool :=
  match lookupKey oldObj k with
  | some stored => pyEqO stored v
  | none => false

/-- The `for k, v in six.iteritems(values)` loop of `BaseLdap.update`:
build the modlist, raising `ValidationError` on a changed immutable
attribute. -/
def updateModlistGo (immutableAttrs attributeIgnore : List String)
    (mapping : List (String × Option String)) (oldObj : Values) :
    List (String × Option PyVal) → Except KErr (List ModEntry)
  | [] => .ok []
  | (k, v) :: rest =>
    if k = "id" ∨ attributeIgnore.contains k then
      updateModlistGo immutableAttrs attributeIgnore mapping oldObj rest
    else if unchangedInOld oldObj k v then
      updateModlistGo immutableAttrs attributeIgnore mapping oldObj rest
    else if immutableAttrs.contains k then
      .error (.validationError k)
    else
      match v with
      | none =>
        match dictGet oldObj k with
        | some _ =>
          (updateModlistGo immutableAttrs attributeIgnore mapping oldObj rest).map
            (fun l => (ModOp.modDelete, mappingGet mapping k, none) :: l)
        | none => updateModlistGo immutableAttrs attributeIgnore mapping oldObj rest
      | some vv =>
        match dictGet oldObj k with
        | none =>
          (updateModlistGo immutableAttrs attributeIgnore mapping oldObj rest).map
            (fun l => (ModOp.modAdd, mappingGet mapping k, some [vv]) :: l)
        | some cur =>
          if pyEq cur vv then
            updateModlistGo immutableAttrs attributeIgnore mapping oldObj rest
          else
            (updateModlistGo immutableAttrs attributeIgnore mapping oldObj rest).map
              (fun l => (ModOp.modReplace, mappingGet mapping k, some [vv]) :: l)

/-- The modlist computed by `BaseLdap.update` from the prior snapshot
`oldObj` and the requested `values`. -/
def updateModlist (immutableAttrs attributeIgnore : List String)
    (mapping : List (String × Option String)) (oldObj values : Values) :
    Except KErr (List ModEntry) :=
  updateModlistGo immutableAttrs attributeIgnore mapping oldObj values

/-- Whether `BaseLdap.update` reaches `conn.modify_s`
(`if modlist:` after the loop; never on a raised error). -/
def updateIssuesModify (immutableAttrs attributeIgnore : List String)
    (mapping : List (String × Option String)) (oldObj values : Values) : Bool :=
  match updateModlist immutableAttrs attributeIgnore mapping oldObj values with
  | .ok [] => false
  | .ok (_ :: _) => true
  | .error _ => false

/- ### Membership operations (`add_member` / `remove_member`) -/

/-- `BaseLdap.add_member`: one modify-add of `memberDn` into the group
`memberListDn`, translating `TYPE_OR_VALUE_EXISTS` into `Conflict` and
`NO_SUCH_OBJECT` into the typed not-found; other protocol errors
propagate. -/
def add_member (memberDn memberListDn : String) (modifyResult : LdapResult) :
    Except KErr Unit :=
  match modifyResult with
  | .success => .ok ()
  | .typeOrValueExists => .error (.conflict memberListDn memberDn)
  | .noSuchObject => .error (.notFound memberListDn)
  | r => .error (.ldapError r)

/-- `BaseLdap.remove_member`: one modify-delete of `memberDn` from the
group `memberListDn`, translating `NO_SUCH_OBJECT` into the typed
not-found; other protocol errors (including `NO_SUCH_ATTRIBUTE`)
propagate. -/
def remove_member (memberDn memberListDn : String) (modifyResult : LdapResult) :
    Except KErr Unit :=
  match modifyResult with
  | .success => .ok ()
  | .noSuchObject => .error (.notFound memberListDn)
  | r => .error (.ldapError r)

/- ### Entry marshalling (`BaseLdap._ldap_res_to_model`) -/

/-- `BaseLdap._dn_to_id` for simple DNs: the value of the first AVA of
the first RDN.  The underlying `ldap.dn.str2dn` is the external client
library; this models it for DNs without escaped characters. -/
def dnToId (dn : String) : String :=
  String.mk ((((dn.toList.takeWhile fun c => c != ',').dropWhile fun c => c != '=').drop 1))

/-- The `lower_res` dictionary of `_ldap_res_to_model`: directory
attribute names lowercased, later duplicates overwriting earlier ones. -/
def lowerKeys (attrs : List (String × List PyVal)) : List (String × List PyVal) :=
  attrs.foldl (fun m kv => insertKey m (strToLower kv.1) kv.2) []

/-- One iteration of the `for k in obj.known_keys` loop of
`_ldap_res_to_model`: skip ignored keys and `None` mappings, leave the
key unset on a missing attribute, bind `v[0]` or `None` otherwise. -/
def modelStep (mapping : List (String × Option String)) (attributeIgnore : List String)
    (lowerRes : List (String × List PyVal)) (obj : Values) (k : String) : Values :=
  if attributeIgnore.contains k then obj
  else
    match mappingGet mapping k with
    | none => obj
    | some mapAttr =>
      match lookupKey lowerRes (strToLower mapAttr) with
      | none => obj
      | some vs => insertKey obj k vs.head?

/-- `BaseLdap._ldap_res_to_model` on a search result `(dn, attrs)`:
construct the model with its id from the DN, then fill every known key
from the case-folded attribute map. -/
def ldap_res_to_model (mapping : List (String × Option String))
    (attributeIgnore : List String) (knownKeys : List String)
    (dn : String) (attrs : List (String × List PyVal)) : Values :=
  knownKeys.foldl (modelStep mapping attributeIgnore (lowerKeys attrs))
    [("id", some (PyVal.s (dnToId dn)))]

/- ### Enabled-emulation overlay (`EnabledEmuMixIn`) -/

/-- Per-entity-type configuration consumed by the entity engine and the
enabled-emulation overlay. -/
structure EmuConfig where
  enabledEmulation : Bool
  attributeIgnore : List String
  immutableAttrs : List String
  attributeMapping : List (String × Option String)
  useDumbMember : Bool
  dumbMember : String
  idAttr : String
  treeDn : String
  enabledEmulationDn : String
deriving DecidableEq

/-- State of the synthetic enabled-emulation group entry. -/
structure EmuState where
  groupExists : Bool
  members : List String
deriving DecidableEq

/-- Protocol write operations issued by the entity engine, as recorded
by a spy connection. -/
inductive LdapOp where
  | modifyAddMember (group memberDn : String)
  | modifyDelMember (group memberDn : String)
  | addGroup (group : String) (members : List String)
  | addEntity (dn : String)
  | modifyEntity (dn : String)
  | deleteEntity (dn : String)
deriving DecidableEq

/-- Membership operations on the emulation group (as opposed to plain
entity writes). -/
def isMembershipOp : LdapOp → Bool
  | .modifyAddMember _ _ => true
  | .modifyDelMember _ _ => true
  | .addGroup _ _ => true
  | _ => false

/-- The membership operations contained in a recorded trace. -/
def membershipOps (ops : List LdapOp) : List LdapOp :=
  ops.filter isMembershipOp

/-- Membership-add modifies in a trace. -/
def isMembershipAdd : LdapOp → Bool
  | .modifyAddMember _ _ => true
  | _ => false

/-- `BaseLdap._id_to_dn_string` (the one-level-scope path of
`_id_to_dn`); `ldap.dn.escape_dn_chars` of the external library is the
identity on the ids used here. -/
def idToDnString (cfg : EmuConfig) (objectId : String) : String :=
  cfg.idAttr ++ "=" ++ objectId ++ "," ++ cfg.treeDn

/-- `ref['id']` of an entity dictionary (ids are text). -/
def refId (ref : Values) : String :=
  match dictGet ref "id" with
  | some (.s s) => s
  | _ => ""

/-- `EnabledEmuMixIn._get_enabled`: the base-scope search on the group
entry with filter `(member=dn)` is non-empty iff the group entry exists
and lists the DN; `NO_SUCH_OBJECT` yields `False`. -/
def getEnabled (cfg : EmuConfig) (st : EmuState) (objectId : String) : Bool :=
  st.groupExists && st.members.contains (idToDnString cfg objectId)

/-- `EnabledEmuMixIn._add_enabled`: if not already enabled, modify-add
the DN to the group; on `NO_SUCH_OBJECT` create the group entry with
the DN (and the dumb member when configured) as members. -/
def addEnabled (cfg : EmuConfig) (st : EmuState) (objectId : String) :
    EmuState × List LdapOp :=
  if getEnabled cfg st objectId then (st, [])
  else
    let dn := idToDnString cfg objectId
    if st.groupExists then
      ({ st with members := dn :: st.members },
       [LdapOp.modifyAddMember cfg.enabledEmulationDn dn])
    else
      let mems := if cfg.useDumbMember then [dn, cfg.dumbMember] else [dn]
      ({ groupExists := true, members := mems },
       [LdapOp.modifyAddMember cfg.enabledEmulationDn dn,
        LdapOp.addGroup cfg.enabledEmulationDn mems])

/-- `EnabledEmuMixIn._remove_enabled`: modify-delete the DN from the
group, swallowing `NO_SUCH_OBJECT` and `NO_SUCH_ATTRIBUTE`. -/
def removeEnabled (cfg : EmuConfig) (st : EmuState) (objectId : String) :
    EmuState × List LdapOp :=
  let dn := idToDnString cfg objectId
  ({ st with members := st.members.filter fun m => m != dn },
   [LdapOp.modifyDelMember cfg.enabledEmulationDn dn])

/-- `BaseLdap.create` as delegated to by the overlay: the uniqueness
probes and attribute construction are read-only or orthogonal here; it
issues the single entity add and returns the input values unchanged. -/
def baseCreate (cfg : EmuConfig) (values : Values) : Values × List LdapOp :=
  (values, [LdapOp.addEntity (idToDnString cfg (refId values))])

/-- `BaseLdap.update` as delegated to by the overlay: diff via
`updateModlist`; an empty modlist issues no write; `newRef` is the
re-fetched post-update entity the source returns (`self.get`). -/
def baseUpdate (cfg : EmuConfig) (objectId : String) (values oldObj newRef : Values) :
    Except KErr (Values × List LdapOp) :=
  match updateModlist cfg.immutableAttrs cfg.attributeIgnore cfg.attributeMapping
      oldObj values with
  | .error e => .error e
  | .ok [] => .ok (newRef, [])
  | .ok (_ :: _) => .ok (newRef, [LdapOp.modifyEntity (idToDnString cfg objectId)])

/-- `BaseLdap.delete`'s protocol write. -/
def baseDelete (cfg : EmuConfig) (objectId : String) : List LdapOp :=
  [LdapOp.deleteEntity (idToDnString cfg objectId)]

/-- The marshalled refs `BaseLdap.get_all` returns for raw `(dn, ref)`
search results. -/
def baseGetAllRefs (entries : List (String × Values)) : List Values :=
  entries.map Prod.snd

/-- `EnabledEmuMixIn.create`: pop the enabled flag (default `True`),
delegate, then add membership if truthy and annotate — unless
`'enabled'` is ignored, in which case the popped flag is dropped. -/
def emuCreate (cfg : EmuConfig) (st : EmuState) (values : Values) :
    Values × EmuState × List LdapOp :=
  if cfg.enabledEmulation then
    let enabledValue := (lookupKey values "enabled").getD (some (PyVal.b true))
    let created := baseCreate cfg (eraseKey values "enabled")
    if cfg.attributeIgnore.contains "enabled" then
      (created.1, st, created.2)
    else
      if pyTruthy enabledValue then
        let added := addEnabled cfg st (refId created.1)
        (insertKey created.1 "enabled" enabledValue, added.1, created.2 ++ added.2)
      else
        (insertKey created.1 "enabled" enabledValue, st, created.2)
  else
    let created := baseCreate cfg values
    (created.1, st, created.2)

/-- `EnabledEmuMixIn.get`: delegate (the delegated result is
`baseRef`), then annotate `enabled` from group membership when
emulation applies. -/
def emuGet (cfg : EmuConfig) (st : EmuState) (objectId : String) (baseRef : Values) :
    Values :=
  if !cfg.attributeIgnore.contains "enabled" && cfg.enabledEmulation then
    insertKey baseRef "enabled" (some (PyVal.b (getEnabled cfg st objectId)))
  else baseRef

/-- `EnabledEmuMixIn.get_all` over the raw `(dn, ref)` results of
`_ldap_get_all`: drop the group entry's own DN and annotate each ref
when emulation applies; otherwise the undecorated marshalling. -/
def emuGetAll (cfg : EmuConfig) (st : EmuState) (entries : List (String × Values)) :
    List Values :=
  if !cfg.attributeIgnore.contains "enabled" && cfg.enabledEmulation then
    ((entries.filter fun e => e.1 != cfg.enabledEmulationDn).map Prod.snd).map
      fun ref => insertKey ref "enabled" (some (PyVal.b (getEnabled cfg st (refId ref))))
  else baseGetAllRefs entries

/-- `EnabledEmuMixIn.update`: pop the enabled flag (default `None`),
delegate the rest, then add or remove membership when the flag was
explicitly supplied and annotate the result. -/
def emuUpdate (cfg : EmuConfig) (st : EmuState) (objectId : String)
    (values oldObj newRef : Values) : Except KErr (Values × EmuState × List LdapOp) :=
  if !cfg.attributeIgnore.contains "enabled" && cfg.enabledEmulation then
    let enabledValue := dictGet values "enabled"
    match baseUpdate cfg objectId (eraseKey values "enabled") oldObj newRef with
    | .error e => .error e
    | .ok (ref, ops1) =>
      match enabledValue with
      | some v =>
        if pyTruthy (some v) then
          let added := addEnabled cfg st objectId
          .ok (insertKey ref "enabled" (some v), added.1, ops1 ++ added.2)
        else
          let removed := removeEnabled cfg st objectId
          .ok (insertKey ref "enabled" (some v), removed.1, ops1 ++ removed.2)
      | none => .ok (ref, st, ops1)
  else
    match baseUpdate cfg objectId values oldObj newRef with
    | .error e => .error e
    | .ok (ref, ops1) => .ok (ref, st, ops1)

/-- `EnabledEmuMixIn.delete`: remove membership first whenever
emulation is on (regardless of the ignored-attribute set), then
delegate the deletion. -/
def emuDelete (cfg : EmuConfig) (st : EmuState) (objectId : String) :
    EmuState × List LdapOp :=
  if cfg.enabledEmulation then
    let removed := removeEnabled cfg st objectId
    (removed.1, removed.2 ++ baseDelete cfg objectId)
  else (st, baseDelete cfg objectId)

/-- The DN validity invariant on an RDN (source docstring: "an
attribute type will only be in one AVA in an RDN, otherwise the DN
wouldn't be valid"), with attribute types identified
case-insensitively. -/
def validRdnTypes (rdn : List AVA) : Prop :=
  (rdn.map fun a => strToLower a.1).Nodup

/-- A sample overlay configuration with emulation on and nothing
ignored. -/
def sampleCfg : EmuConfig :=
  ⟨true, [], [], [], false, "cn=dumb,dc=nonexistent", "cn",
    "ou=users,dc=example,dc=com", "cn=enabled_users,ou=users,dc=example,dc=com"⟩

/-- A sample overlay configuration with emulation on and `'enabled'`
ignored. -/
def sampleCfgIgnored : EmuConfig :=
  ⟨true, ["enabled"], [], [], false, "cn=dumb,dc=nonexistent", "cn",
    "ou=users,dc=example,dc=com", "cn=enabled_users,ou=users,dc=example,dc=com"⟩

/-- A sample overlay configuration with emulation turned off. -/
def sampleCfgOff : EmuConfig :=
  ⟨false, [], [], [], false, "cn=dumb,dc=nonexistent", "cn",
    "ou=users,dc=example,dc=com", "cn=enabled_users,ou=users,dc=example,dc=com"⟩

/-- A sample emulation-group state: the group exists and is empty. -/
def sampleSt : EmuState := ⟨true, []⟩

/-- A sample emulation-group state listing one member. -/
def sampleStMember : EmuState := ⟨true, ["cn=x,ou=users,dc=example,dc=com"]⟩

/- ## Theorems -/

/-- Claim C1: for the descendant DN `cn=a,ou=b,dc=c` and the ancestor `dc=c`
the ancestor's RDNs equal the final RDNs of the descendant (the drop-2
suffix is `dn_equal` to it) and the descendant is strictly longer, yet
`dn_startswith` returns `False`: the source slices
`descendant_dn[len(dn):]` where the containment documented in its own
docstring requires the last `len(dn)` RDNs. -/
theorem dn_startswith_bug_eval :
    is_dn_equal
        (List.drop 2 [[("cn", "a", 1)], [("ou", "b", 1)], [("dc", "c", 1)]])
        [[("dc", "c", 1)]] = true ∧
    ([[("cn", "a", 1)], [("ou", "b", 1)], [("dc", "c", 1)]] : List (List AVA)).length >
        ([[("dc", "c", 1)]] : List (List AVA)).length ∧
    dn_startswith [[("cn", "a", 1)], [("ou", "b", 1)], [("dc", "c", 1)]]
        [[("dc", "c", 1)]] = false := by
  decide

/-- Claim C6: `add_member` turns an already-a-value protocol report into
`Conflict` and no-such-object into the typed not-found;
`remove_member` turns no-such-object into the typed not-found; in none
of these cases does the raw protocol error reach the caller. -/
theorem member_error_translation (m g : String) :
    add_member m g .typeOrValueExists = .error (.conflict g m) ∧
    add_member m g .noSuchObject = .error (.notFound g) ∧
    remove_member m g .noSuchObject = .error (.notFound g) ∧
    (∀ r : LdapResult,
      add_member m g r ≠ .error (.ldapError .typeOrValueExists) ∧
      add_member m g r ≠ .error (.ldapError .noSuchObject) ∧
      remove_member m g r ≠ .error (.ldapError .noSuchObject)) := by
  refine ⟨rfl, rfl, rfl, ?_⟩
  intro r
  cases r <;> simp [add_member, remove_member]

/-- Claim C7 counterexample: over raw AVA lists `is_rdn_equal` is not
symmetric — with a duplicated attribute type on the left, the pair
`([cn=a, cn=a], [cn=a, ou=b])` compares equal left-to-right but not
right-to-left. -/
theorem is_rdn_equal_symmetry_counterexample :
    is_rdn_equal [("cn", "a", 1), ("cn", "a", 1)] [("cn", "a", 1), ("ou", "b", 1)] = true ∧
    is_rdn_equal [("cn", "a", 1), ("ou", "b", 1)] [("cn", "a", 1), ("cn", "a", 1)] = false := by
  decide

/-- Claim C3 counterexample: the text `"TRUE"` does not survive the
encode/decode round trip — `ldap2py` maps it to the boolean `True`. -/
theorem codec_text_roundtrip_counterexample :
    ldap2py (py2ldap (PyVal.s "TRUE")) = PyVal.b true ∧
    PyVal.b true ≠ PyVal.s "TRUE" := by
  decide

/-- Claim C4 counterexample: with the id attribute configured immutable and a
values map changing it, `BaseLdap.update` raises nothing — the loop
skips the `id` key before the immutable check — and computes an empty
modlist instead of `ValidationError`. -/
theorem update_immutable_counterexample :
    updateModlist ["id"] [] [] [("id", some (PyVal.s "a"))] [("id", some (PyVal.s "b"))] =
      .ok [] ∧
    updateIssuesModify ["id"] [] [] [("id", some (PyVal.s "a"))]
      [("id", some (PyVal.s "b"))] = false := by
  decide

/-- Claim C9 counterexample: with emulation on and `'enabled'` in the
ignored-attribute set, `EnabledEmuMixIn.delete` still issues a
membership removal, so the overlay does not behave like the
undecorated delete. -/
theorem emu_passthrough_counterexample :
    sampleCfgIgnored.attributeIgnore.contains "enabled" = true ∧
    membershipOps (emuDelete sampleCfgIgnored sampleStMember "x").2 ≠ [] ∧
    (emuDelete sampleCfgIgnored sampleStMember "x").2 ≠
      baseDelete sampleCfgIgnored "x" := by
  decide

/-- Accumulator lemma for the paging loop: a block of pages that all
carry the paging control with a non-empty cookie is consumed whole,
appending its entries to the accumulator. -/
theorem pagedLoop_append_good {α : Type} (ps : Nat) (pages tail : List (PageResponse α))
    (hgood : ∀ r ∈ pages, ∃ c cs, pageCtrls r = c :: cs ∧ c.2.2 ≠ "") (acc : List α) :
    pagedLoop ps acc (pages ++ tail) =
      pagedLoop ps (acc ++ (pages.map PageResponse.rdata).flatten) tail := by
  induction pages generalizing acc with
  | nil => simp
  | cons r rest ih =>
    obtain ⟨c, cs, hc, hne⟩ := hgood r (by simp)
    have hrest : ∀ x ∈ rest, ∃ c cs, pageCtrls x = c :: cs ∧ c.2.2 ≠ "" :=
      fun x hx => hgood x (by simp [hx])
    simp only [List.cons_append, pagedLoop, hc]
    rw [if_pos hne, List.append_eq, ih hrest (acc ++ r.rdata)]
    simp [List.append_assoc]

/-- Claim C2: when every page up to the first empty-cookie response carries
the paging control with a non-empty cookie, `_paged_search_s` returns
exactly the in-order concatenation of the pages' entries including that
final page, keeping the page size and emitting no warning; when a
response carries no paging control, the loop returns the entries
accumulated so far (including that response's), emits one warning and
sets `page_size` to `0`, after which `search_s` takes the unpaged
path. -/
theorem paged_search_spec {α : Type} (ps : Nat) (pages rest1 rest2 : List (PageResponse α))
    (lastR badR : PageResponse α)
    (hgood : ∀ r ∈ pages, ∃ c cs, pageCtrls r = c :: cs ∧ c.2.2 ≠ "")
    (hlast : ∃ c cs, pageCtrls lastR = c :: cs ∧ c.2.2 = "")
    (hbad : pageCtrls badR = []) :
    paged_search_s ps (pages ++ lastR :: rest1) =
      some ((pages.map PageResponse.rdata).flatten ++ lastR.rdata, ps, 0) ∧
    paged_search_s ps (pages ++ badR :: rest2) =
      some ((pages.map PageResponse.rdata).flatten ++ badR.rdata, 0, 1) ∧
    searchUsesPagedPath 0 = false := by
  obtain ⟨c, cs, hc, hemp⟩ := hlast
  refine ⟨?_, ?_, rfl⟩
  · unfold paged_search_s
    rw [pagedLoop_append_good ps pages _ hgood []]
    simp only [List.nil_append, pagedLoop, hc]
    rw [if_neg (by simp [hemp])]
  · unfold paged_search_s
    rw [pagedLoop_append_good ps pages _ hgood []]
    simp only [List.nil_append, pagedLoop, hbad]

/-- Witness for the paged-search theorem at a concrete two-page
exchange and a concrete paging-unsupported exchange. -/
theorem paged_search_spec_witness :
    paged_search_s 7
        ([(⟨[1, 2], [("x", 0, "n"), ("1.2.840.113556.1.4.319", 5, "ck")]⟩ : PageResponse Nat)] ++
          (⟨[3], [("1.2.840.113556.1.4.319", 0, "")]⟩ : PageResponse Nat) :: []) =
      some (([(⟨[1, 2], [("x", 0, "n"), ("1.2.840.113556.1.4.319", 5, "ck")]⟩ :
            PageResponse Nat)].map PageResponse.rdata).flatten ++ [3], 7, 0) ∧
    paged_search_s 7
        ([(⟨[1, 2], [("x", 0, "n"), ("1.2.840.113556.1.4.319", 5, "ck")]⟩ : PageResponse Nat)] ++
          (⟨[9], [("other", 0, "z")]⟩ : PageResponse Nat) :: [⟨[4], []⟩]) =
      some (([(⟨[1, 2], [("x", 0, "n"), ("1.2.840.113556.1.4.319", 5, "ck")]⟩ :
            PageResponse Nat)].map PageResponse.rdata).flatten ++ [9], 0, 1) ∧
    searchUsesPagedPath 0 = false :=
  paged_search_spec 7
    [⟨[1, 2], [("x", 0, "n"), ("1.2.840.113556.1.4.319", 5, "ck")]⟩]
    [] [⟨[4], []⟩]
    ⟨[3], [("1.2.840.113556.1.4.319", 0, "")]⟩
    ⟨[9], [("other", 0, "z")]⟩
    (by
      intro r hr
      simp only [List.mem_singleton] at hr
      subst hr
      exact ⟨("1.2.840.113556.1.4.319", 5, "ck"), [], by decide, by decide⟩)
    ⟨("1.2.840.113556.1.4.319", 0, ""), [], by decide, rfl⟩
    (by decide)

/-- Auxiliary induction for C5: when every non-id, non-ignored entry of
the values list is unchanged relative to the prior object, the update
loop yields an empty modlist. -/
theorem updateModlistGo_unchanged (imm ign : List String)
    (mapping : List (String × Option String)) (oldObj : Values) :
    ∀ values : List (String × Option PyVal),
      (∀ k v, (k, v) ∈ values → k ≠ "id" → ign.contains k = false →
        unchangedInOld oldObj k v = true) →
      updateModlistGo imm ign mapping oldObj values = .ok [] := by
  intro values
  induction values with
  | nil => intro _; rfl
  | cons kv rest ih =>
    intro h
    obtain ⟨k, v⟩ := kv
    have hrest : ∀ k v, (k, v) ∈ rest → k ≠ "id" → ign.contains k = false →
        unchangedInOld oldObj k v = true :=
      fun k' v' hm h1 h2 => h k' v' (by simp [hm]) h1 h2
    by_cases h1 : k = "id" ∨ ign.contains k
    · simp only [updateModlistGo, if_pos h1]
      exact ih hrest
    · have hid : k ≠ "id" := fun hk => h1 (Or.inl hk)
      have hig : ign.contains k = false := by
        cases hc : ign.contains k
        · rfl
        · exact absurd (Or.inr hc) h1
      have hu : unchangedInOld oldObj k v = true := h k v (by simp) hid hig
      simp only [updateModlistGo, if_neg h1, hu, if_true]
      exact ih hrest

/-- Claim C5: a values map whose entries (apart from the id key and ignored
attributes) all equal the prior object's values makes `BaseLdap.update`
compute an empty modlist and skip the `modify_s` call. -/
theorem update_identical_no_write (imm ign : List String)
    (mapping : List (String × Option String)) (oldObj values : Values)
    (h : ∀ k v, (k, v) ∈ values → k ≠ "id" → ign.contains k = false →
      unchangedInOld oldObj k v = true) :
    updateModlist imm ign mapping oldObj values = .ok [] ∧
    updateIssuesModify imm ign mapping oldObj values = false := by
  have hm : updateModlist imm ign mapping oldObj values = .ok [] :=
    updateModlistGo_unchanged imm ign mapping oldObj values h
  exact ⟨hm, by simp [updateIssuesModify, hm]⟩

/-- Witness for C5: an update presenting the entity's current name and
an ignored attribute computes no modification. -/
theorem update_identical_no_write_witness :
    updateModlist ["name"] [] [("name", some "sn")]
        [("name", some (PyVal.s "alice")), ("desc", some (PyVal.s "d"))]
        [("id", some (PyVal.s "alice")), ("name", some (PyVal.s "alice"))] = .ok [] ∧
    updateIssuesModify ["name"] [] [("name", some "sn")]
        [("name", some (PyVal.s "alice")), ("desc", some (PyVal.s "d"))]
        [("id", some (PyVal.s "alice")), ("name", some (PyVal.s "alice"))] = false :=
  update_identical_no_write ["name"] [] [("name", some "sn")]
    [("name", some (PyVal.s "alice")), ("desc", some (PyVal.s "d"))]
    [("id", some (PyVal.s "alice")), ("name", some (PyVal.s "alice"))]
    (by
      intro k v hm h1 h2
      simp only [List.mem_cons, List.mem_singleton, List.not_mem_nil, or_false,
        Prod.mk.injEq] at hm
      rcases hm with ⟨rfl, rfl⟩ | ⟨rfl, rfl⟩
      · exact absurd rfl h1
      · decide)

/-- Auxiliary induction for C4: once the values list contains a
changed immutable attribute (other than the id key and ignored
attributes), the update loop aborts with `ValidationError` for some
immutable attribute, whichever entry it trips on first. -/
theorem updateModlistGo_immutable_error (imm ign : List String)
    (mapping : List (String × Option String)) (oldObj : Values)
    (k : String) (v : Option PyVal)
    (hid : k ≠ "id") (hig : ign.contains k = false)
    (hch : unchangedInOld oldObj k v = false) (himm : imm.contains k = true) :
    ∀ values : List (String × Option PyVal), (k, v) ∈ values →
      ∃ a, imm.contains a = true ∧
        updateModlistGo imm ign mapping oldObj values = .error (.validationError a) := by
  intro values
  induction values with
  | nil => intro hm; cases hm
  | cons kv rest ih =>
    intro hm
    obtain ⟨k', v'⟩ := kv
    rcases List.mem_cons.mp hm with heq | hrest
    · rw [Prod.mk.injEq] at heq
      obtain ⟨rfl, rfl⟩ := heq
      simp only [updateModlistGo]
      rw [if_neg (fun hor => hor.elim hid (fun hc => by rw [hig] at hc; cases hc)),
        if_neg (by simp [hch]), if_pos himm]
      exact ⟨k, himm, rfl⟩
    · obtain ⟨a, ha, hres⟩ := ih hrest
      simp only [updateModlistGo]
      by_cases h1 : k' = "id" ∨ ign.contains k' = true
      · rw [if_pos h1]
        exact ⟨a, ha, hres⟩
      · rw [if_neg h1]
        by_cases h2 : unchangedInOld oldObj k' v' = true
        · rw [if_pos h2]
          exact ⟨a, ha, hres⟩
        · rw [if_neg h2]
          by_cases h3 : imm.contains k' = true
          · rw [if_pos h3]
            exact ⟨k', h3, rfl⟩
          · rw [if_neg h3]
            refine ⟨a, ha, ?_⟩
            cases v' with
            | none =>
              cases hd : dictGet oldObj k' <;> simp [hres, Except.map]
            | some vv =>
              cases hd : dictGet oldObj k' with
              | none => simp [hres, Except.map]
              | some cur =>
                by_cases h4 : pyEq cur vv = true <;> simp [h4, hres, Except.map]

/-- Claim C4 (amended): a values map assigning to some immutable attribute —
other than the id key and ignored attributes — a value different from
the prior object's makes `BaseLdap.update` raise `ValidationError` for
an immutable attribute and never reach `modify_s`. -/
theorem update_immutable_raises (imm ign : List String)
    (mapping : List (String × Option String)) (oldObj values : Values)
    (k : String) (v : Option PyVal)
    (hmem : (k, v) ∈ values) (hid : k ≠ "id") (hig : ign.contains k = false)
    (hch : unchangedInOld oldObj k v = false) (himm : imm.contains k = true) :
    (∃ a, imm.contains a = true ∧
      updateModlist imm ign mapping oldObj values = .error (.validationError a)) ∧
    updateIssuesModify imm ign mapping oldObj values = false := by
  obtain ⟨a, ha, hres⟩ :=
    updateModlistGo_immutable_error imm ign mapping oldObj k v hid hig hch himm values hmem
  have hres' : updateModlist imm ign mapping oldObj values = .error (.validationError a) :=
    hres
  exact ⟨⟨a, ha, hres'⟩, by simp [updateIssuesModify, hres']⟩

/-- Witness for C4 at a concrete immutable-name update. -/
theorem update_immutable_raises_witness :
    (∃ a, (["name"] : List String).contains a = true ∧
      updateModlist ["name"] [] [] [("name", some (PyVal.s "a"))]
        [("name", some (PyVal.s "b"))] = .error (.validationError a)) ∧
    updateIssuesModify ["name"] [] [] [("name", some (PyVal.s "a"))]
      [("name", some (PyVal.s "b"))] = false :=
  update_immutable_raises ["name"] [] [] [("name", some (PyVal.s "a"))]
    [("name", some (PyVal.s "b"))] "name" (some (PyVal.s "b"))
    (by decide) (by decide) (by decide) (by decide) (by decide)

/-- Looking up the key just inserted yields the inserted value. -/
theorem lookupKey_insertKey_self {α : Type} (m : List (String × α)) (k : String) (v : α) :
    lookupKey (insertKey m k v) k = some v := by
  induction m with
  | nil => simp [insertKey, lookupKey]
  | cons kv rest ih =>
    obtain ⟨k', v'⟩ := kv
    by_cases h : k' = k
    · simp [insertKey, h, lookupKey]
    · simp [insertKey, h, lookupKey, ih]

/-- Inserting under a different key does not change a lookup. -/
theorem lookupKey_insertKey_other {α : Type} (m : List (String × α)) (k k' : String)
    (v : α) (h : k' ≠ k) :
    lookupKey (insertKey m k' v) k = lookupKey m k := by
  induction m with
  | nil => simp [insertKey, lookupKey, h]
  | cons kv rest ih =>
    obtain ⟨k0, v0⟩ := kv
    by_cases h0 : k0 = k'
    · subst h0
      simp [insertKey, lookupKey, h]
    · by_cases hk : k0 = k
      · subst hk
        simp [insertKey, h0, lookupKey]
      · simp [insertKey, h0, lookupKey, hk, ih]

/-- A marshalling step for a different known key leaves a key's binding
untouched. -/
theorem modelStep_lookup_other (mapping : List (String × Option String))
    (ignore : List String) (lowerRes : List (String × List PyVal)) (obj : Values)
    (k' k : String) (h : k' ≠ k) :
    lookupKey (modelStep mapping ignore lowerRes obj k') k = lookupKey obj k := by
  unfold modelStep
  split
  · rfl
  · split
    · rfl
    · split
      · rfl
      · exact lookupKey_insertKey_other obj k k' _ h

/-- Folding marshalling steps over keys not containing `k` leaves `k`'s
binding untouched. -/
theorem foldl_modelStep_notmem (mapping : List (String × Option String))
    (ignore : List String) (lowerRes : List (String × List PyVal)) (k : String) :
    ∀ (ks : List String) (obj : Values), k ∉ ks →
      lookupKey (ks.foldl (modelStep mapping ignore lowerRes) obj) k = lookupKey obj k := by
  intro ks
  induction ks with
  | nil => intro obj _; rfl
  | cons k0 rest ih =>
    intro obj h
    rw [List.foldl_cons, ih _ (fun hm => h (List.mem_cons_of_mem _ hm)),
      modelStep_lookup_other _ _ _ _ _ _
        (fun he => h (by rw [he]; exact List.mem_cons_self _ _))]

/-- Claim C10: marshalling a directory entry sets a known key whose mapped
attribute is present with an empty value list to `None`, and leaves a
key whose mapped attribute is absent unset. -/
theorem ldap_res_to_model_empty_and_absent (mapping : List (String × Option String))
    (ignore knownKeys : List String) (dn : String)
    (attrs1 attrs2 : List (String × List PyVal)) (k mapAttr : String)
    (hnd : knownKeys.Nodup) (hk : k ∈ knownKeys) (hid : k ≠ "id")
    (hig : ignore.contains k = false)
    (hmap : mappingGet mapping k = some mapAttr)
    (h1 : lookupKey (lowerKeys attrs1) (strToLower mapAttr) = some [])
    (h2 : lookupKey (lowerKeys attrs2) (strToLower mapAttr) = none) :
    lookupKey (ldap_res_to_model mapping ignore knownKeys dn attrs1) k = some none ∧
    lookupKey (ldap_res_to_model mapping ignore knownKeys dn attrs2) k = none := by
  obtain ⟨l1, l2, rfl⟩ := List.append_of_mem hk
  have hnd1 : k ∉ l1 := by
    rw [List.nodup_append] at hnd
    exact fun hm => hnd.2.2 hm (List.mem_cons_self _ _)
  have hnd2 : k ∉ l2 := by
    rw [List.nodup_append, List.nodup_cons] at hnd
    exact hnd.2.1.1
  have hig2 : k ∉ ignore := by simpa using hig
  constructor
  · unfold ldap_res_to_model
    rw [List.foldl_append, List.foldl_cons,
      foldl_modelStep_notmem _ _ _ k l2 _ hnd2]
    simp [modelStep, hig2, hmap, h1, lookupKey_insertKey_self]
  · unfold ldap_res_to_model
    rw [List.foldl_append, List.foldl_cons,
      foldl_modelStep_notmem _ _ _ k l2 _ hnd2]
    have hmid : lookupKey (modelStep mapping ignore (lowerKeys attrs2)
        (List.foldl (modelStep mapping ignore (lowerKeys attrs2))
          [("id", some (PyVal.s (dnToId dn)))] l1) k) k =
        lookupKey (List.foldl (modelStep mapping ignore (lowerKeys attrs2))
          [("id", some (PyVal.s (dnToId dn)))] l1) k := by
      simp [modelStep, hig2, hmap, h2]
    rw [hmid, foldl_modelStep_notmem _ _ _ k l1 _ hnd1]
    simp [lookupKey, Ne.symm hid]

/-- Witness for C10: an entry carrying `MAIL` with an empty value list
marshals `email` to `None`; an entry without the attribute leaves
`email` unset. -/
theorem ldap_res_to_model_empty_and_absent_witness :
    lookupKey (ldap_res_to_model [("email", some "mail")] [] ["email"]
        "cn=alice,ou=x" [("MAIL", [])]) "email" = some none ∧
    lookupKey (ldap_res_to_model [("email", some "mail")] [] ["email"]
        "cn=alice,ou=x" []) "email" = none :=
  ldap_res_to_model_empty_and_absent [("email", some "mail")] [] ["email"]
    "cn=alice,ou=x" [("MAIL", [])] [] "email" "mail"
    (by decide) (by decide) (by decide) (by decide) (by decide) (by decide) (by decide)

/-- Claim C8: with emulation on and `'enabled'` not ignored — creating with
`enabled=False` issues no membership operation, returns the entity
annotated `enabled=False` and leaves the group state unchanged; `get`
reports `enabled` computed from membership in the emulation group; an
update supplying `enabled=True` (on a yet-disabled entity whose
emulation group exists) issues exactly one membership-add, after which
`get` reports `enabled=True`. -/
theorem enabled_emulation_scenario (cfg : EmuConfig) (st : EmuState)
    (values oldObj newRef baseRef : Values) (objectId : String)
    (hEmu : cfg.enabledEmulation = true)
    (hIgn : cfg.attributeIgnore.contains "enabled" = false)
    (hVal : lookupKey values "enabled" = some (some (PyVal.b false)))
    (hNe : getEnabled cfg st objectId = false)
    (hGe : st.groupExists = true) :
    membershipOps (emuCreate cfg st values).2.2 = [] ∧
    dictGet (emuCreate cfg st values).1 "enabled" = some (PyVal.b false) ∧
    (emuCreate cfg st values).2.1 = st ∧
    dictGet (emuGet cfg st objectId baseRef) "enabled" =
      some (PyVal.b (getEnabled cfg st objectId)) ∧
    emuUpdate cfg st objectId [("enabled", some (PyVal.b true))] oldObj newRef =
      .ok (insertKey newRef "enabled" (some (PyVal.b true)),
        { st with members := idToDnString cfg objectId :: st.members },
        [LdapOp.modifyAddMember cfg.enabledEmulationDn (idToDnString cfg objectId)]) ∧
    ([LdapOp.modifyAddMember cfg.enabledEmulationDn (idToDnString cfg objectId)].filter
        isMembershipAdd).length = 1 ∧
    getEnabled cfg { st with members := idToDnString cfg objectId :: st.members } objectId
      = true ∧
    dictGet (emuGet cfg { st with members := idToDnString cfg objectId :: st.members }
        objectId baseRef) "enabled" = some (PyVal.b true) := by
  have hIgn2 : "enabled" ∉ cfg.attributeIgnore := by simpa using hIgn
  have hcreate : emuCreate cfg st values =
      (insertKey (eraseKey values "enabled") "enabled" (some (PyVal.b false)), st,
        [LdapOp.addEntity (idToDnString cfg (refId (eraseKey values "enabled")))]) := by
    unfold emuCreate baseCreate
    rw [if_pos hEmu, hVal]
    simp [hIgn2, pyTruthy]
  have hget : ∀ (st0 : EmuState) (bR : Values),
      dictGet (emuGet cfg st0 objectId bR) "enabled" =
        some (PyVal.b (getEnabled cfg st0 objectId)) := by
    intro st0 bR
    unfold emuGet
    rw [if_pos (by simp [hIgn2, hEmu])]
    simp [dictGet, lookupKey_insertKey_self]
  have hen : getEnabled cfg { st with members := idToDnString cfg objectId :: st.members }
      objectId = true := by
    simp [getEnabled, hGe, List.contains_cons]
  have hupd : emuUpdate cfg st objectId [("enabled", some (PyVal.b true))] oldObj newRef =
      .ok (insertKey newRef "enabled" (some (PyVal.b true)),
        { st with members := idToDnString cfg objectId :: st.members },
        [LdapOp.modifyAddMember cfg.enabledEmulationDn (idToDnString cfg objectId)]) := by
    unfold emuUpdate
    rw [if_pos (by simp [hIgn2, hEmu])]
    simp [baseUpdate, updateModlist, updateModlistGo, dictGet, lookupKey, eraseKey,
      pyTruthy, addEnabled, hNe, hGe]
  refine ⟨?_, ?_, ?_, hget st baseRef, hupd, rfl, hen, ?_⟩
  · rw [hcreate]
    rfl
  · rw [hcreate]
    simp [dictGet, lookupKey_insertKey_self]
  · rw [hcreate]
  · rw [hget _ baseRef, hen]

/-- Witness for C8 at a concrete configuration, empty group and the
entity `alice` created with `enabled=False` then enabled via update. -/
theorem enabled_emulation_scenario_witness :
    membershipOps (emuCreate sampleCfg sampleSt
        [("id", some (PyVal.s "alice")), ("enabled", some (PyVal.b false))]).2.2 = [] ∧
    dictGet (emuCreate sampleCfg sampleSt
        [("id", some (PyVal.s "alice")), ("enabled", some (PyVal.b false))]).1 "enabled" =
      some (PyVal.b false) ∧
    (emuCreate sampleCfg sampleSt
        [("id", some (PyVal.s "alice")), ("enabled", some (PyVal.b false))]).2.1 =
      sampleSt ∧
    dictGet (emuGet sampleCfg sampleSt "alice" []) "enabled" =
      some (PyVal.b (getEnabled sampleCfg sampleSt "alice")) ∧
    emuUpdate sampleCfg sampleSt "alice" [("enabled", some (PyVal.b true))] [] [] =
      .ok (insertKey [] "enabled" (some (PyVal.b true)),
        { sampleSt with members := idToDnString sampleCfg "alice" :: sampleSt.members },
        [LdapOp.modifyAddMember sampleCfg.enabledEmulationDn
          (idToDnString sampleCfg "alice")]) ∧
    ([LdapOp.modifyAddMember sampleCfg.enabledEmulationDn
        (idToDnString sampleCfg "alice")].filter isMembershipAdd).length = 1 ∧
    getEnabled sampleCfg
      { sampleSt with members := idToDnString sampleCfg "alice" :: sampleSt.members }
      "alice" = true ∧
    dictGet (emuGet sampleCfg
        { sampleSt with members := idToDnString sampleCfg "alice" :: sampleSt.members }
        "alice" []) "enabled" = some (PyVal.b true) :=
  enabled_emulation_scenario sampleCfg sampleSt
    [("id", some (PyVal.s "alice")), ("enabled", some (PyVal.b false))] [] [] [] "alice"
    (by decide) (by decide) (by decide) (by decide) (by decide)

/-- The delegated `BaseLdap.update` never issues membership
operations: its trace is empty or a single entity modify. -/
theorem baseUpdate_no_membership (cfg : EmuConfig) (objectId : String)
    (values oldObj newRef ref : Values) (ops : List LdapOp)
    (h : baseUpdate cfg objectId values oldObj newRef = .ok (ref, ops)) :
    membershipOps ops = [] := by
  unfold baseUpdate at h
  split at h
  · cases h
  · simp only [Except.ok.injEq, Prod.mk.injEq] at h
    rw [← h.2]
    rfl
  · simp only [Except.ok.injEq, Prod.mk.injEq] at h
    rw [← h.2]
    rfl

/-- Claim C9 (amended): with enabled emulation turned off in configuration,
every overlay operation delegates to the undecorated entity-engine
operation: same results, unchanged group state, and no membership
operation in any trace.  (When emulation is on but `'enabled'` is
ignored, create still pops the flag and delete still removes
membership — see the counterexample.) -/
theorem emu_overlay_off_passthrough (cfg : EmuConfig) (st : EmuState)
    (values values2 oldObj newRef baseRef : Values) (objectId : String)
    (entries : List (String × Values))
    (h : cfg.enabledEmulation = false) :
    emuCreate cfg st values = ((baseCreate cfg values).1, st, (baseCreate cfg values).2) ∧
    membershipOps (emuCreate cfg st values).2.2 = [] ∧
    emuGet cfg st objectId baseRef = baseRef ∧
    emuGetAll cfg st entries = baseGetAllRefs entries ∧
    emuUpdate cfg st objectId values2 oldObj newRef =
      (baseUpdate cfg objectId values2 oldObj newRef).map (fun p => (p.1, st, p.2)) ∧
    (∀ ref st2 ops, emuUpdate cfg st objectId values2 oldObj newRef = .ok (ref, st2, ops) →
      st2 = st ∧ membershipOps ops = []) ∧
    emuDelete cfg st objectId = (st, baseDelete cfg objectId) ∧
    membershipOps (emuDelete cfg st objectId).2 = [] := by
  have hcreate : emuCreate cfg st values =
      ((baseCreate cfg values).1, st, (baseCreate cfg values).2) := by
    unfold emuCreate
    rw [if_neg (by simp [h])]
  have hupd : emuUpdate cfg st objectId values2 oldObj newRef =
      (baseUpdate cfg objectId values2 oldObj newRef).map (fun p => (p.1, st, p.2)) := by
    unfold emuUpdate
    rw [if_neg (by simp [h])]
    cases hb : baseUpdate cfg objectId values2 oldObj newRef with
    | error e => simp [Except.map]
    | ok p => obtain ⟨r, ops1⟩ := p; simp [Except.map]
  have hdel : emuDelete cfg st objectId = (st, baseDelete cfg objectId) := by
    unfold emuDelete
    rw [if_neg (by simp [h])]
  refine ⟨hcreate, ?_, ?_, ?_, hupd, ?_, hdel, ?_⟩
  · rw [hcreate]
    rfl
  · simp [emuGet, h]
  · simp [emuGetAll, h, baseGetAllRefs]
  · intro ref st2 ops heq
    rw [hupd] at heq
    cases hb : baseUpdate cfg objectId values2 oldObj newRef with
    | error e => rw [hb] at heq; cases heq
    | ok p =>
      obtain ⟨r, ops1⟩ := p
      rw [hb] at heq
      simp only [Except.map, Except.ok.injEq, Prod.mk.injEq] at heq
      obtain ⟨h1, h2, h3⟩ := heq
      refine ⟨h2.symm, ?_⟩
      rw [← h3]
      exact baseUpdate_no_membership cfg objectId values2 oldObj newRef r ops1 hb
  · rw [hdel]
    rfl

/-- Witness for C9 at a concrete emulation-off configuration. -/
theorem emu_overlay_off_passthrough_witness :
    emuCreate sampleCfgOff sampleSt [("id", some (PyVal.s "u"))] =
      ((baseCreate sampleCfgOff [("id", some (PyVal.s "u"))]).1, sampleSt,
        (baseCreate sampleCfgOff [("id", some (PyVal.s "u"))]).2) ∧
    membershipOps (emuCreate sampleCfgOff sampleSt [("id", some (PyVal.s "u"))]).2.2 = [] ∧
    emuGet sampleCfgOff sampleSt "u" [("id", some (PyVal.s "u"))] =
      [("id", some (PyVal.s "u"))] ∧
    emuGetAll sampleCfgOff sampleSt [("d1", [("id", some (PyVal.s "u"))])] =
      baseGetAllRefs [("d1", [("id", some (PyVal.s "u"))])] ∧
    emuUpdate sampleCfgOff sampleSt "u" [("name", some (PyVal.s "n"))] [] [] =
      (baseUpdate sampleCfgOff "u" [("name", some (PyVal.s "n"))] [] []).map
        (fun p => (p.1, sampleSt, p.2)) ∧
    (∀ ref st2 ops,
      emuUpdate sampleCfgOff sampleSt "u" [("name", some (PyVal.s "n"))] [] [] =
        .ok (ref, st2, ops) → st2 = sampleSt ∧ membershipOps ops = []) ∧
    emuDelete sampleCfgOff sampleSt "u" = (sampleSt, baseDelete sampleCfgOff "u") ∧
    membershipOps (emuDelete sampleCfgOff sampleSt "u").2 = [] :=
  emu_overlay_off_passthrough sampleCfgOff sampleSt [("id", some (PyVal.s "u"))]
    [("name", some (PyVal.s "n"))] [] [] [("id", some (PyVal.s "u"))] "u"
    [("d1", [("id", some (PyVal.s "u"))])] (by decide)

/-- AVA value comparison is symmetric (for any attribute-type
arguments, which the source ignores). -/
theorem is_ava_value_equal_symm (t t' v1 v2 : String) :
    is_ava_value_equal t v1 v2 = is_ava_value_equal t' v2 v1 := by
  unfold is_ava_value_equal
  rw [Bool.eq_iff_iff, beq_iff_eq, beq_iff_eq]
  exact eq_comm

/-- Under the validity invariant on `r`, the inner scan succeeds iff
some AVA of `r` matches in attribute type and value. -/
theorem scanRdn_foundEq_iff (t1 v1 : String) (r : List AVA) (hr : validRdnTypes r) :
    scanRdn t1 v1 r = .foundEq ↔
      ∃ a ∈ r, strToLower t1 = strToLower a.1 ∧
        is_ava_value_equal t1 v1 a.2.1 = true := by
  induction r with
  | nil => simp [scanRdn]
  | cons hd tl ih =>
    obtain ⟨t2, v2, d⟩ := hd
    have hr2 : (strToLower t2 :: tl.map fun a => strToLower a.1).Nodup := hr
    have hnd := List.nodup_cons.mp hr2
    have hr' : validRdnTypes tl := hnd.2
    by_cases ht : strToLower t1 = strToLower t2
    · simp only [scanRdn, if_pos ht]
      constructor
      · intro hs
        by_cases hv : is_ava_value_equal t1 v1 v2 = true
        · exact ⟨(t2, v2, d), by simp, ht, hv⟩
        · rw [if_neg hv] at hs
          cases hs
      · rintro ⟨a, ha, hta, hva⟩
        rcases List.mem_cons.mp ha with rfl | hmem
        · rw [if_pos hva]
        · exfalso
          refine hnd.1 (List.mem_map.mpr ⟨a, hmem, ?_⟩)
          rw [← hta, ht]
    · simp only [scanRdn, if_neg ht]
      rw [ih hr']
      constructor
      · rintro ⟨a, ha, hta, hva⟩
        exact ⟨a, List.mem_cons_of_mem _ ha, hta, hva⟩
      · rintro ⟨a, ha, hta, hva⟩
        rcases List.mem_cons.mp ha with rfl | hmem
        · exact absurd hta ht
        · exact ⟨a, hmem, hta, hva⟩

/-- The outer loop succeeds iff every AVA of `r1` scans to a value
match in `r2`. -/
theorem rdnAllFound_iff (r2 r1 : List AVA) :
    rdnAllFound r2 r1 = true ↔ ∀ a ∈ r1, scanRdn a.1 a.2.1 r2 = .foundEq := by
  induction r1 with
  | nil => simp [rdnAllFound]
  | cons hd tl ih =>
    obtain ⟨t1, v1, d⟩ := hd
    simp only [rdnAllFound]
    cases hs : scanRdn t1 v1 r2 with
    | foundEq => simp [List.forall_mem_cons, hs, ih]
    | missing => simp [List.forall_mem_cons, hs]
    | foundNe => simp [List.forall_mem_cons, hs]

/-- Characterisation of `is_rdn_equal` when the right RDN satisfies
the validity invariant. -/
theorem is_rdn_equal_iff (r1 r2 : List AVA) (h2 : validRdnTypes r2) :
    is_rdn_equal r1 r2 = true ↔
      (r1.length = r2.length ∧ ∀ a1 ∈ r1, ∃ a2 ∈ r2,
        strToLower a1.1 = strToLower a2.1 ∧
        is_ava_value_equal a1.1 a1.2.1 a2.2.1 = true) := by
  unfold is_rdn_equal
  by_cases hl : r1.length = r2.length
  · rw [if_neg (fun hne => hne hl), rdnAllFound_iff]
    constructor
    · intro hall
      exact ⟨hl, fun a1 ha1 => (scanRdn_foundEq_iff a1.1 a1.2.1 r2 h2).mp (hall a1 ha1)⟩
    · rintro ⟨_, hall⟩ a1 ha1
      exact (scanRdn_foundEq_iff a1.1 a1.2.1 r2 h2).mpr (hall a1 ha1)
  · rw [if_pos hl]
    simp [hl]

/-- The counting argument behind symmetry: with both RDNs valid and of
equal length, a full left-to-right match set flips into a full
right-to-left one. -/
theorem rdn_match_flip (r1 r2 : List AVA)
    (h1 : validRdnTypes r1) (h2 : validRdnTypes r2)
    (hlen : r1.length = r2.length)
    (hall : ∀ a1 ∈ r1, ∃ a2 ∈ r2, strToLower a1.1 = strToLower a2.1 ∧
      is_ava_value_equal a1.1 a1.2.1 a2.2.1 = true) :
    ∀ a2 ∈ r2, ∃ a1 ∈ r1, strToLower a2.1 = strToLower a1.1 ∧
      is_ava_value_equal a2.1 a2.2.1 a1.2.1 = true := by
  intro a2 ha2
  have hsub : (r1.map fun x => strToLower x.1).toFinset ⊆
      (r2.map fun x => strToLower x.1).toFinset := by
    intro t ht
    rw [List.mem_toFinset] at ht ⊢
    obtain ⟨x, hx, rfl⟩ := List.mem_map.mp ht
    obtain ⟨y, hy, hty, _⟩ := hall x hx
    exact List.mem_map.mpr ⟨y, hy, hty.symm⟩
  have hcard : (r2.map fun x => strToLower x.1).toFinset.card ≤
      (r1.map fun x => strToLower x.1).toFinset.card := by
    rw [List.toFinset_card_of_nodup h1, List.toFinset_card_of_nodup h2]
    simp [hlen]
  have heq := Finset.eq_of_subset_of_card_le hsub hcard
  have ht2 : strToLower a2.1 ∈ (r1.map fun x => strToLower x.1).toFinset := by
    rw [heq]
    exact List.mem_toFinset.mpr (List.mem_map.mpr ⟨a2, ha2, rfl⟩)
  obtain ⟨a1, ha1, hta1⟩ := List.mem_map.mp (List.mem_toFinset.mp ht2)
  obtain ⟨a2x, ha2x, hty, hval⟩ := hall a1 ha1
  have hxx : a2x = a2 :=
    List.inj_on_of_nodup_map h2 ha2x ha2 (by rw [← hty]; exact hta1)
  rw [hxx] at hval
  refine ⟨a1, ha1, hta1.symm, ?_⟩
  rw [is_ava_value_equal_symm a2.1 a1.1 a2.2.1 a1.2.1]
  exact hval

/-- Claim C7 (amended): on RDNs satisfying the DN validity invariant (each
attribute type in at most one AVA, case-insensitively), `is_rdn_equal`
is symmetric, and every such RDN is equal to itself. -/
theorem is_rdn_equal_symm_and_refl (r1 r2 r : List AVA)
    (h1 : validRdnTypes r1) (h2 : validRdnTypes r2) (h : validRdnTypes r) :
    is_rdn_equal r1 r2 = is_rdn_equal r2 r1 ∧ is_rdn_equal r r = true := by
  constructor
  · rw [Bool.eq_iff_iff, is_rdn_equal_iff r1 r2 h2, is_rdn_equal_iff r2 r1 h1]
    constructor
    · rintro ⟨hlen, hall⟩
      exact ⟨hlen.symm, rdn_match_flip r1 r2 h1 h2 hlen hall⟩
    · rintro ⟨hlen, hall⟩
      exact ⟨hlen.symm, rdn_match_flip r2 r1 h2 h1 hlen hall⟩
  · rw [is_rdn_equal_iff r r h]
    refine ⟨rfl, fun a ha => ⟨a, ha, rfl, ?_⟩⟩
    unfold is_ava_value_equal
    exact beq_self_eq_true _

/-- Witness for C7 on concrete valid RDNs (multi-valued, mixed case and
whitespace). -/
theorem is_rdn_equal_symm_and_refl_witness :
    is_rdn_equal [("CN", "Alice", 1)] [("cn", " alice ", 1)] =
      is_rdn_equal [("cn", " alice ", 1)] [("CN", "Alice", 1)] ∧
    is_rdn_equal [("ou", "x", 1), ("cn", "y", 1)] [("ou", "x", 1), ("cn", "y", 1)] = true :=
  is_rdn_equal_symm_and_refl [("CN", "Alice", 1)] [("cn", " alice ", 1)]
    [("ou", "x", 1), ("cn", "y", 1)] (by unfold validRdnTypes; decide)
    (by unfold validRdnTypes; decide) (by unfold validRdnTypes; decide)

/-- Decimal digit characters are digits. -/
theorem digitChar_isDigit (d : Nat) (h : d < 10) : (Nat.digitChar d).isDigit = true := by
  interval_cases d <;> decide

/-- Numeric value of a decimal digit character. -/
theorem digitChar_sub (d : Nat) (h : d < 10) : (Nat.digitChar d).toNat - 48 = d := by
  interval_cases d <;> decide

/-- Appending a digit multiplies the accumulated value by ten. -/
theorem digitsVal_append (l : List Char) (c : Char) :
    digitsVal (l ++ [c]) = 10 * digitsVal l + (c.toNat - 48) := by
  unfold digitsVal
  rw [List.foldl_append]
  simp [Nat.mul_comm]

/-- The digit string of a positive natural number is non-empty, all
digits, and evaluates back to the number. -/
theorem natDigits_spec : ∀ n : Nat, n ≠ 0 →
    natDigits n ≠ [] ∧ (natDigits n).all Char.isDigit = true ∧
      digitsVal (natDigits n) = n := by
  intro n
  induction n using Nat.strong_induction_on with
  | _ n ih =>
    intro hn
    rw [natDigits, dif_neg hn]
    by_cases h10 : n / 10 = 0
    · rw [h10, natDigits, dif_pos rfl]
      have hlt : n % 10 < 10 := Nat.mod_lt _ (by omega)
      have hn10 : n % 10 = n := by omega
      refine ⟨by simp, ?_, ?_⟩
      · simp [digitChar_isDigit _ hlt]
      · simp only [List.nil_append, digitsVal, List.foldl_cons, List.foldl_nil]
        simp only [Nat.zero_mul, Nat.zero_add]
        rw [digitChar_sub _ hlt]
        exact hn10
    · obtain ⟨hne, hall, hval⟩ := ih (n / 10) (Nat.div_lt_self (by omega) (by omega)) h10
      have hlt : n % 10 < 10 := Nat.mod_lt _ (by omega)
      refine ⟨by simp, ?_, ?_⟩
      · rw [List.all_append]
        simp [hall, digitChar_isDigit _ hlt]
      · rw [digitsVal_append, hval, digitChar_sub _ hlt]
        omega

/-- Digit characters are not Python whitespace. -/
theorem isDigit_not_ws (c : Char) (h : c.isDigit = true) : isPyWs c = false := by
  cases hw : isPyWs c
  · rfl
  · exfalso
    unfold isPyWs at hw
    simp only [Bool.or_eq_true, beq_iff_eq] at hw
    rcases hw with ((((h1 | h1) | h1) | h1) | h1) | h1 <;>
      (subst h1; exact absurd h (by decide))

/-- Digit characters are not sign characters. -/
theorem isDigit_ne_sign (c : Char) (h : c.isDigit = true) : c ≠ '-' ∧ c ≠ '+' := by
  constructor <;> intro he <;> (subst he; exact absurd h (by decide))

/-- `dropWhile` leaves a list whose head fails the predicate alone. -/
theorem dropWhile_cons_false {α : Type} (p : α → Bool) (c : α) (l : List α)
    (h : p c = false) : List.dropWhile p (c :: l) = c :: l := by
  simp [List.dropWhile, h]

/-- `dropWhile isPyWs` leaves an all-digit list alone. -/
theorem dropWhile_digits (l : List Char) (hall : l.all Char.isDigit = true) :
    List.dropWhile isPyWs l = l := by
  cases l with
  | nil => rfl
  | cons c t =>
    have hc : Char.isDigit c = true := List.all_eq_true.mp hall c (by simp)
    exact dropWhile_cons_false _ _ _ (isDigit_not_ws c hc)

/-- Whitespace stripping leaves an all-digit list alone. -/
theorem stripWs_digits (l : List Char) (hall : l.all Char.isDigit = true) :
    stripWsList l = l := by
  unfold stripWsList
  rw [dropWhile_digits l hall,
    dropWhile_digits l.reverse (by rw [List.all_reverse]; exact hall),
    List.reverse_reverse]

/-- A non-empty all-digit list parses back through `digitsToNat`. -/
theorem digitsToNat_natDigits (n : Nat) (hn : n ≠ 0) :
    digitsToNat (natDigits n) = some n := by
  obtain ⟨hne, hall, hval⟩ := natDigits_spec n hn
  unfold digitsToNat
  rw [if_neg (by simp [List.isEmpty_iff, hne]), if_pos hall, hval]

/-- Python `int(str(n))` recovers `n` for every integer. -/
theorem pyIntParse_intToLdapString (n : Int) :
    pyIntParse (intToLdapString n) = some n := by
  cases n with
  | ofNat m =>
    by_cases hm : m = 0
    · subst hm
      decide
    · obtain ⟨hne, hall, hval⟩ := natDigits_spec m hm
      simp only [intToLdapString, natToString, pyIntParse]
      rw [if_neg hm]
      have htl : (String.mk (natDigits m)).toList = natDigits m := rfl
      rw [htl, stripWs_digits _ hall]
      obtain ⟨c, t, hct⟩ := List.exists_cons_of_ne_nil hne
      have hc : Char.isDigit c = true :=
        List.all_eq_true.mp hall c (by rw [hct]; simp)
      obtain ⟨hminus, hplus⟩ := isDigit_ne_sign c hc
      rw [hct]
      simp only [pyIntParseChars]
      rw [if_neg hminus, if_neg hplus, ← hct, digitsToNat_natDigits m hm]
      rfl
  | negSucc m =>
    obtain ⟨hne, hall, hval⟩ := natDigits_spec (m + 1) (by omega)
    simp only [intToLdapString, pyIntParse]
    have htl : (String.mk ('-' :: natDigits (m + 1))).toList = '-' :: natDigits (m + 1) :=
      rfl
    rw [htl]
    have hstrip : stripWsList ('-' :: natDigits (m + 1)) = '-' :: natDigits (m + 1) := by
      unfold stripWsList
      rw [dropWhile_cons_false _ _ _ (by decide)]
      obtain ⟨c, t, hct⟩ := List.exists_cons_of_ne_nil
        (l := ('-' :: natDigits (m + 1)).reverse) (by simp)
      have hcmem : c ∈ ('-' :: natDigits (m + 1)).reverse := by rw [hct]; simp
      rw [List.mem_reverse] at hcmem
      have hcfst : c ∈ natDigits (m + 1) ∨ c = '-' := by
        rcases List.mem_cons.mp hcmem with h | h
        · exact Or.inr h
        · exact Or.inl h
      have hws : isPyWs c = false := by
        rcases hcfst with h | h
        · exact isDigit_not_ws c (List.all_eq_true.mp hall c h)
        · rw [h]; rfl
      rw [hct, dropWhile_cons_false _ _ _ hws, ← hct, List.reverse_reverse]
    rw [hstrip]
    simp only [pyIntParseChars]
    rw [if_pos trivial, digitsToNat_natDigits (m + 1) (by omega)]
    simp [Int.negSucc_eq]

/-- The decimal rendering of an integer is never the boolean literal
strings. -/
theorem intToLdapString_ne_bool (n : Int) :
    intToLdapString n ≠ "TRUE" ∧ intToLdapString n ≠ "FALSE" := by
  cases n with
  | ofNat m =>
    by_cases hm : m = 0
    · subst hm
      exact ⟨by decide, by decide⟩
    · obtain ⟨hne, hall, hval⟩ := natDigits_spec m hm
      simp only [intToLdapString, natToString]
      rw [if_neg hm]
      constructor
      · intro he
        have hdata : natDigits m = "TRUE".toList := congrArg String.toList he
        have hmem : 'T' ∈ natDigits m := by rw [hdata]; decide
        exact absurd (List.all_eq_true.mp hall 'T' hmem) (by decide)
      · intro he
        have hdata : natDigits m = "FALSE".toList := congrArg String.toList he
        have hmem : 'F' ∈ natDigits m := by rw [hdata]; decide
        exact absurd (List.all_eq_true.mp hall 'F' hmem) (by decide)
  | negSucc m =>
    constructor
    · intro he
      have hdata : '-' :: natDigits (m + 1) = "TRUE".toList := congrArg String.toList he
      rw [show "TRUE".toList = ['T', 'R', 'U', 'E'] from rfl] at hdata
      injection hdata with h1 h2
      exact absurd h1 (by decide)
    · intro he
      have hdata : '-' :: natDigits (m + 1) = "FALSE".toList := congrArg String.toList he
      rw [show "FALSE".toList = ['F', 'A', 'L', 'S', 'E'] from rfl] at hdata
      injection hdata with h1 h2
      exact absurd h1 (by decide)

/-- Claim C3 (amended): decoding the encoding of a boolean yields the
boolean, decoding the encoding of an integer yields an equal integer,
and a text value round-trips exactly provided it is not one of the
boolean literals `"TRUE"`/`"FALSE"` and does not parse as an integer
(`ldap2py` deliberately decodes such strings to booleans/integers). -/
theorem codec_roundtrip (b : Bool) (n : Int) (t : String)
    (h1 : t ≠ "TRUE") (h2 : t ≠ "FALSE") (h3 : pyIntParse t = none) :
    ldap2py (py2ldap (PyVal.b b)) = PyVal.b b ∧
    ldap2py (py2ldap (PyVal.i n)) = PyVal.i n ∧
    ldap2py (py2ldap (PyVal.s t)) = PyVal.s t := by
  refine ⟨?_, ?_, ?_⟩
  · cases b <;> decide
  · obtain ⟨hT, hF⟩ := intToLdapString_ne_bool n
    simp only [py2ldap, ldap2py]
    rw [if_neg hT, if_neg hF, pyIntParse_intToLdapString n]
  · simp only [py2ldap, ldap2py]
    rw [if_neg h1, if_neg h2, h3]

/-- Witness for C3 at `True`, `-12` and the text `"hello"`. -/
theorem codec_roundtrip_witness :
    ldap2py (py2ldap (PyVal.b true)) = PyVal.b true ∧
    ldap2py (py2ldap (PyVal.i (-12))) = PyVal.i (-12) ∧
    ldap2py (py2ldap (PyVal.s "hello")) = PyVal.s "hello" :=
  codec_roundtrip true (-12) "hello" (by decide) (by decide) (by decide)
